import Mathlib

/-!
Verification of the SynergySphere backend data model.

The repository declares two Django ORM models:
* `projects/models.py` — `Project` with `name = CharField(max_length=200)`,
  `description = TextField()`, `progress / total_tasks / completed_tasks =
  IntegerField(default=0)`, and `__str__` returning `self.name`;
* `tasks/models.py` — `Task` with `project = ForeignKey(Project,
  on_delete=CASCADE)`, `title = CharField(max_length=200)`,
  `completed = BooleanField(default=False)`, and `__str__` returning
  `self.title`.

The CRUD operations, the length bound, the foreign-key check and the
cascade delete are supplied by the persistence layer (the framework and
the database), which is not part of this repository's own code; following
the specification, those behaviours are modelled explicitly below, each
marked `Modelled from the spec:`.
-/

set_option maxRecDepth 8192

namespace SynergySphere

/-- Embeds `Project` from `projects/models.py`: the field declarations,
with the `default=0` declarations becoming Lean default field values.
Integer fields are unbounded `Int` (no range constraint is declared). -/
structure Project where
  name : String
  description : String
  progress : Int := 0
  total_tasks : Int := 0
  completed_tasks : Int := 0
deriving DecidableEq

/-- Embeds `Project.__str__`, which returns `self.name`. -/
def Project.str (p : Project) : String := p.name

/-- Embeds `Task` from `tasks/models.py`: the `project` foreign key is the
primary key (an id) of the referenced `Project` row; `default=False`
becomes a Lean default field value. -/
structure Task where
  project : Nat
  title : String
  completed : Bool := false
deriving DecidableEq

/-- Embeds `Task.__str__`, which returns `self.title`. -/
def Task.str (t : Task) : String := t.title

/-- Modelled from the spec: the persisted state kept by the persistence
layer (not in this repository's code) — a table of `Project` rows and a
table of `Task` rows, each keyed by an auto-incremented primary key. -/
structure DB where
  projects : List (Nat × Project)
  tasks : List (Nat × Task)
  nextProjectId : Nat
  nextTaskId : Nat
deriving DecidableEq

/-- The initial, empty persisted state. -/
def DB.empty : DB := ⟨[], [], 1, 1⟩

/-- Modelled from the spec: creating (persisting) a `Project`.  The
persistence layer rejects a `name` longer than 200 code units
(`max_length=200`); otherwise the row is stored under a fresh primary
key, which is returned with the new state. -/
def DB.createProject (db : DB) (p : Project) : Except String (DB × Nat) :=
  if 200 < p.name.length then
    Except.error "max_length"
  else
    Except.ok ({ db with
                  projects := db.projects ++ [(db.nextProjectId, p)],
                  nextProjectId := db.nextProjectId + 1 },
               db.nextProjectId)

/-- Modelled from the spec: updating an existing `Project` row in place.
The same `max_length=200` bound on `name` is enforced; updating a
nonexistent primary key fails. -/
def DB.updateProject (db : DB) (pid : Nat) (p : Project) : Except String DB :=
  if 200 < p.name.length then
    Except.error "max_length"
  else if (db.projects.lookup pid).isNone then
    Except.error "does_not_exist"
  else
    Except.ok { db with
                 projects := db.projects.map
                   (fun e => if e.1 == pid then (pid, p) else e) }

/-- Modelled from the spec: deleting a `Project` row.  The cascade rule
(`on_delete=CASCADE`) also deletes every `Task` row whose `project`
reference is the deleted primary key. -/
def DB.deleteProject (db : DB) (pid : Nat) : DB :=
  { db with
     projects := db.projects.filter (fun e => e.1 != pid),
     tasks := db.tasks.filter (fun e => e.2.project != pid) }

/-- Modelled from the spec: creating (persisting) a `Task`.  The
persistence layer rejects a `title` longer than 200 code units and, by
referential integrity, a `project` reference that does not resolve to an
existing `Project` row; otherwise the row is stored under a fresh primary
key, which is returned with the new state. -/
def DB.createTask (db : DB) (t : Task) : Except String (DB × Nat) :=
  if 200 < t.title.length then
    Except.error "max_length"
  else if (db.projects.lookup t.project).isNone then
    Except.error "foreign_key_violation"
  else
    Except.ok ({ db with
                  tasks := db.tasks ++ [(db.nextTaskId, t)],
                  nextTaskId := db.nextTaskId + 1 },
               db.nextTaskId)

/-- Modelled from the spec: updating an existing `Task` row in place,
with the same `title` length bound and referential-integrity check. -/
def DB.updateTask (db : DB) (tid : Nat) (t : Task) : Except String DB :=
  if 200 < t.title.length then
    Except.error "max_length"
  else if (db.projects.lookup t.project).isNone then
    Except.error "foreign_key_violation"
  else if (db.tasks.lookup tid).isNone then
    Except.error "does_not_exist"
  else
    Except.ok { db with
                 tasks := db.tasks.map
                   (fun e => if e.1 == tid then (tid, t) else e) }

/-- Modelled from the spec: deleting a single `Task` row. -/
def DB.deleteTask (db : DB) (tid : Nat) : DB :=
  { db with tasks := db.tasks.filter (fun e => e.1 != tid) }

/-- Modelled from the spec: a failed persistence attempt is transactional
— when `createTask` reports an error, the caller's state is unchanged. -/
def DB.applyCreateTask (db : DB) (t : Task) : DB :=
  match db.createTask t with
  | Except.ok (db', _) => db'
  | Except.error _ => db

/-- Referential integrity: every persisted `Task`'s `project` reference
resolves to an existing `Project` row. -/
def DB.refIntegrity (db : DB) : Bool :=
  db.tasks.all (fun e => (db.projects.lookup e.2.project).isSome)

/-- Every persisted `name` and `title` is at most 200 code units long. -/
def DB.lengthOk (db : DB) : Bool :=
  db.projects.all (fun e => e.2.name.length ≤ 200) &&
    db.tasks.all (fun e => e.2.title.length ≤ 200)

/-- Primary keys already handed out are below the auto-increment counters. -/
def DB.fresh (db : DB) : Prop :=
  (∀ e ∈ db.projects, e.1 < db.nextProjectId) ∧
    (∀ e ∈ db.tasks, e.1 < db.nextTaskId)

/-- The combined state invariant. -/
def DB.Inv (db : DB) : Prop :=
  db.refIntegrity = true ∧ db.lengthOk = true ∧ db.fresh

/-- One successful persistence operation. -/
inductive Step : DB → DB → Prop
  | createProject {db : DB} {p : Project} {db' : DB} {pid : Nat} :
      db.createProject p = Except.ok (db', pid) → Step db db'
  | updateProject {db : DB} {pid : Nat} {p : Project} {db' : DB} :
      db.updateProject pid p = Except.ok db' → Step db db'
  | deleteProject (db : DB) (pid : Nat) : Step db (db.deleteProject pid)
  | createTask {db : DB} {t : Task} {db' : DB} {tid : Nat} :
      db.createTask t = Except.ok (db', tid) → Step db db'
  | updateTask {db : DB} {tid : Nat} {t : Task} {db' : DB} :
      db.updateTask tid t = Except.ok db' → Step db db'
  | deleteTask (db : DB) (tid : Nat) : Step db (db.deleteTask tid)

/-- The states reachable from the empty state by persistence operations. -/
inductive Reachable : DB → Prop
  | empty : Reachable DB.empty
  | step {db db' : DB} : Reachable db → Step db db' → Reachable db'

/-! ### Association-list lemmas -/

theorem lookup_append_some {β : Type} {l l' : List (Nat × β)} {k : Nat} {v : β}
    (h : l.lookup k = some v) : (l ++ l').lookup k = some v := by
  induction l with
  | nil => simp at h
  | cons e tl ih =>
    obtain ⟨k', v'⟩ := e
    rw [List.lookup_cons] at h
    rw [List.cons_append, List.lookup_cons]
    cases hk : k == k' with
    | true => simpa [hk] using h
    | false =>
      rw [hk] at h
      exact ih h

theorem lookup_append_none {β : Type} {l : List (Nat × β)} (l' : List (Nat × β)) {k : Nat}
    (h : l.lookup k = none) : (l ++ l').lookup k = l'.lookup k := by
  induction l with
  | nil => simp
  | cons e tl ih =>
    obtain ⟨k', v'⟩ := e
    rw [List.lookup_cons] at h
    rw [List.cons_append, List.lookup_cons]
    cases hk : k == k' with
    | true => simp [hk] at h
    | false =>
      rw [hk] at h
      exact ih h

theorem lookup_eq_none_of_keys {β : Type} {l : List (Nat × β)} {k : Nat}
    (h : ∀ e ∈ l, e.1 ≠ k) : l.lookup k = none := by
  induction l with
  | nil => simp
  | cons e tl ih =>
    obtain ⟨k', v'⟩ := e
    rw [List.lookup_cons]
    have hk : (k == k') = false := by
      have := h (k', v') (List.mem_cons_self _ _)
      simp only [ne_eq] at this
      simpa [beq_iff_eq] using fun hkk => this hkk.symm
    rw [hk]
    exact ih fun e he => h e (List.mem_cons_of_mem _ he)

theorem lookup_filter_key {β : Type} (l : List (Nat × β)) (pid k : Nat) (hk : k ≠ pid) :
    (l.filter (fun e => e.1 != pid)).lookup k = l.lookup k := by
  induction l with
  | nil => simp
  | cons e tl ih =>
    obtain ⟨k', v'⟩ := e
    rw [List.filter_cons]
    split
    · rw [List.lookup_cons, List.lookup_cons]
      cases hkk : k == k' with
      | true => rfl
      | false => exact ih
    · rename_i hdrop
      have hp : k' = pid := by simpa using hdrop
      subst hp
      rw [ih, List.lookup_cons]
      have hkk : (k == k') = false := by simpa [beq_iff_eq] using hk
      rw [hkk]

theorem lookup_filter_val {β : Type} (p : Nat × β → Bool) {l : List (Nat × β)} {k : Nat} {v : β}
    (h : l.lookup k = some v) (hv : p (k, v) = true) :
    (l.filter p).lookup k = some v := by
  induction l with
  | nil => simp at h
  | cons e tl ih =>
    obtain ⟨k', v'⟩ := e
    rw [List.lookup_cons] at h
    cases hkk : k == k' with
    | true =>
      rw [hkk] at h
      obtain rfl : v' = v := by simpa using h
      obtain rfl : k = k' := by simpa [beq_iff_eq] using hkk
      rw [List.filter_cons, hv]
      simp
    | false =>
      rw [hkk] at h
      rw [List.filter_cons]
      split
      · rw [List.lookup_cons, hkk]
        exact ih h
      · exact ih h

theorem lookup_map_update_isSome {β : Type} (l : List (Nat × β)) (pid : Nat) (p : β) (k : Nat) :
    ((l.map (fun e => if e.1 == pid then (pid, p) else e)).lookup k).isSome
      = (l.lookup k).isSome := by
  induction l with
  | nil => simp
  | cons e tl ih =>
    obtain ⟨k', v'⟩ := e
    simp only [List.map_cons]
    split
    · rename_i hc
      have hkp : k' = pid := by simpa [beq_iff_eq] using hc
      subst hkp
      rw [List.lookup_cons, List.lookup_cons]
      cases hkk : k == k' with
      | true => simp [hkk]
      | false => exact ih
    · rw [List.lookup_cons, List.lookup_cons]
      cases hkk : k == k' with
      | true => simp [hkk]
      | false => exact ih

/-! ### The state invariant is preserved by every operation -/

theorem refIntegrity_iff {db : DB} :
    db.refIntegrity = true ↔
      ∀ e ∈ db.tasks, (db.projects.lookup e.2.project).isSome = true := by
  simp [DB.refIntegrity, List.all_eq_true]

theorem lengthOk_iff {db : DB} :
    db.lengthOk = true ↔ (∀ e ∈ db.projects, e.2.name.length ≤ 200) ∧
      (∀ e ∈ db.tasks, e.2.title.length ≤ 200) := by
  simp [DB.lengthOk, List.all_eq_true]

theorem inv_createProject {db : DB} {p : Project} {db' : DB} {pid : Nat}
    (hinv : db.Inv) (h : db.createProject p = Except.ok (db', pid)) : db'.Inv := by
  obtain ⟨hri, hlen, hfp, hft⟩ := hinv
  rw [refIntegrity_iff] at hri
  obtain ⟨hlp, hlt⟩ := lengthOk_iff.mp hlen
  rw [DB.createProject] at h
  split at h
  · exact absurd h (by simp)
  · rename_i hname
    injection h with h1
    injection h1 with h2 h3
    subst h2
    subst h3
    refine ⟨refIntegrity_iff.mpr ?_, lengthOk_iff.mpr ⟨?_, hlt⟩, ?_, hft⟩
    · intro e he
      obtain ⟨v, hv⟩ := Option.isSome_iff_exists.mp (hri e he)
      simp only
      rw [lookup_append_some hv]
      rfl
    · intro e he
      rcases List.mem_append.mp he with h1 | h1
      · exact hlp e h1
      · obtain rfl : e = (db.nextProjectId, p) := by simpa using h1
        exact Nat.le_of_not_lt hname
    · intro e he
      rcases List.mem_append.mp he with h1 | h1
      · exact Nat.lt_succ_of_lt (hfp e h1)
      · obtain rfl : e = (db.nextProjectId, p) := by simpa using h1
        exact Nat.lt_succ_self _

theorem inv_updateProject {db : DB} {pid : Nat} {p : Project} {db' : DB}
    (hinv : db.Inv) (h : db.updateProject pid p = Except.ok db') : db'.Inv := by
  obtain ⟨hri, hlen, hfp, hft⟩ := hinv
  rw [refIntegrity_iff] at hri
  obtain ⟨hlp, hlt⟩ := lengthOk_iff.mp hlen
  rw [DB.updateProject] at h
  split at h
  · exact absurd h (by simp)
  · split at h
    · exact absurd h (by simp)
    · rename_i hname hex
      injection h with h1
      subst h1
      refine ⟨refIntegrity_iff.mpr ?_, lengthOk_iff.mpr ⟨?_, hlt⟩, ?_, hft⟩
      · intro e he
        simp only
        rw [lookup_map_update_isSome]
        exact hri e he
      · intro e he
        obtain ⟨a, ha, hfa⟩ := List.mem_map.mp he
        by_cases hc : a.1 = pid
        · have : e = (pid, p) := by rw [← hfa]; simp [hc]
          subst this
          exact Nat.le_of_not_lt hname
        · have : e = a := by rw [← hfa]; simp [hc]
          rw [this]
          exact hlp a ha
      · intro e he
        obtain ⟨a, ha, hfa⟩ := List.mem_map.mp he
        by_cases hc : a.1 = pid
        · have : e = (pid, p) := by rw [← hfa]; simp [hc]
          subst this
          exact hc ▸ hfp a ha
        · have : e = a := by rw [← hfa]; simp [hc]
          rw [this]
          exact hfp a ha

theorem inv_deleteProject {db : DB} (pid : Nat) (hinv : db.Inv) :
    (db.deleteProject pid).Inv := by
  obtain ⟨hri, hlen, hfp, hft⟩ := hinv
  rw [refIntegrity_iff] at hri
  obtain ⟨hlp, hlt⟩ := lengthOk_iff.mp hlen
  refine ⟨refIntegrity_iff.mpr ?_, lengthOk_iff.mpr ⟨?_, ?_⟩, ?_, ?_⟩
  · intro e he
    obtain ⟨hmem, hpred⟩ := List.mem_filter.mp he
    have hne : e.2.project ≠ pid := by simpa using hpred
    show ((db.projects.filter _).lookup e.2.project).isSome = true
    rw [lookup_filter_key _ _ _ hne]
    exact hri e hmem
  · exact fun e he => hlp e (List.mem_of_mem_filter he)
  · exact fun e he => hlt e (List.mem_of_mem_filter he)
  · exact fun e he => hfp e (List.mem_of_mem_filter he)
  · exact fun e he => hft e (List.mem_of_mem_filter he)

theorem inv_createTask {db : DB} {t : Task} {db' : DB} {tid : Nat}
    (hinv : db.Inv) (h : db.createTask t = Except.ok (db', tid)) : db'.Inv := by
  obtain ⟨hri, hlen, hfp, hft⟩ := hinv
  rw [refIntegrity_iff] at hri
  obtain ⟨hlp, hlt⟩ := lengthOk_iff.mp hlen
  rw [DB.createTask] at h
  split at h
  · exact absurd h (by simp)
  · split at h
    · exact absurd h (by simp)
    · rename_i htitle hfk
      injection h with h1
      injection h1 with h2 h3
      subst h2
      subst h3
      refine ⟨refIntegrity_iff.mpr ?_, lengthOk_iff.mpr ⟨hlp, ?_⟩, hfp, ?_⟩
      · intro e he
        rcases List.mem_append.mp he with h1 | h1
        · exact hri e h1
        · obtain rfl : e = (db.nextTaskId, t) := by simpa using h1
          simpa [Option.isNone_iff_eq_none, Option.ne_none_iff_isSome] using hfk
      · intro e he
        rcases List.mem_append.mp he with h1 | h1
        · exact hlt e h1
        · obtain rfl : e = (db.nextTaskId, t) := by simpa using h1
          exact Nat.le_of_not_lt htitle
      · intro e he
        rcases List.mem_append.mp he with h1 | h1
        · exact Nat.lt_succ_of_lt (hft e h1)
        · obtain rfl : e = (db.nextTaskId, t) := by simpa using h1
          exact Nat.lt_succ_self _

theorem inv_updateTask {db : DB} {tid : Nat} {t : Task} {db' : DB}
    (hinv : db.Inv) (h : db.updateTask tid t = Except.ok db') : db'.Inv := by
  obtain ⟨hri, hlen, hfp, hft⟩ := hinv
  rw [refIntegrity_iff] at hri
  obtain ⟨hlp, hlt⟩ := lengthOk_iff.mp hlen
  rw [DB.updateTask] at h
  split at h
  · exact absurd h (by simp)
  · split at h
    · exact absurd h (by simp)
    · split at h
      · exact absurd h (by simp)
      · rename_i htitle hfk hex
        injection h with h1
        subst h1
        refine ⟨refIntegrity_iff.mpr ?_, lengthOk_iff.mpr ⟨hlp, ?_⟩, hfp, ?_⟩
        · intro e he
          obtain ⟨a, ha, hfa⟩ := List.mem_map.mp he
          by_cases hc : a.1 = tid
          · have : e = (tid, t) := by rw [← hfa]; simp [hc]
            subst this
            simpa [Option.isNone_iff_eq_none, Option.ne_none_iff_isSome] using hfk
          · have : e = a := by rw [← hfa]; simp [hc]
            rw [this]
            exact hri a ha
        · intro e he
          obtain ⟨a, ha, hfa⟩ := List.mem_map.mp he
          by_cases hc : a.1 = tid
          · have : e = (tid, t) := by rw [← hfa]; simp [hc]
            subst this
            exact Nat.le_of_not_lt htitle
          · have : e = a := by rw [← hfa]; simp [hc]
            rw [this]
            exact hlt a ha
        · intro e he
          obtain ⟨a, ha, hfa⟩ := List.mem_map.mp he
          by_cases hc : a.1 = tid
          · have : e = (tid, t) := by rw [← hfa]; simp [hc]
            subst this
            exact hc ▸ hft a ha
          · have : e = a := by rw [← hfa]; simp [hc]
            rw [this]
            exact hft a ha

theorem inv_deleteTask {db : DB} (tid : Nat) (hinv : db.Inv) :
    (db.deleteTask tid).Inv := by
  obtain ⟨hri, hlen, hfp, hft⟩ := hinv
  rw [refIntegrity_iff] at hri
  obtain ⟨hlp, hlt⟩ := lengthOk_iff.mp hlen
  refine ⟨refIntegrity_iff.mpr ?_, lengthOk_iff.mpr ⟨hlp, ?_⟩, hfp, ?_⟩
  · exact fun e he => hri e (List.mem_of_mem_filter he)
  · exact fun e he => hlt e (List.mem_of_mem_filter he)
  · exact fun e he => hft e (List.mem_of_mem_filter he)

theorem inv_step {db db' : DB} (hinv : db.Inv) (hs : Step db db') : db'.Inv := by
  cases hs with
  | createProject h => exact inv_createProject hinv h
  | updateProject h => exact inv_updateProject hinv h
  | deleteProject pid => exact inv_deleteProject pid hinv
  | createTask h => exact inv_createTask hinv h
  | updateTask h => exact inv_updateTask hinv h
  | deleteTask tid => exact inv_deleteTask tid hinv

theorem reachable_inv {db : DB} (h : Reachable db) : db.Inv := by
  induction h with
  | empty => exact ⟨rfl, rfl, by simp [DB.empty, DB.fresh]⟩
  | step _ hs ih => exact inv_step ih hs

theorem fresh_project_lookup_none {db : DB} (h : db.fresh) :
    db.projects.lookup db.nextProjectId = none :=
  lookup_eq_none_of_keys fun e he => Nat.ne_of_lt (h.1 e he)

theorem fresh_task_lookup_none {db : DB} (h : db.fresh) :
    db.tasks.lookup db.nextTaskId = none :=
  lookup_eq_none_of_keys fun e he => Nat.ne_of_lt (h.2 e he)

theorem mem_of_lookup_some {β : Type} {l : List (Nat × β)} {k : Nat} {v : β}
    (h : l.lookup k = some v) : (k, v) ∈ l := by
  induction l with
  | nil => simp at h
  | cons e tl ih =>
    obtain ⟨k', v'⟩ := e
    rw [List.lookup_cons] at h
    cases hk : k == k' with
    | true =>
      rw [hk] at h
      obtain rfl : v' = v := by simpa using h
      obtain rfl : k = k' := by simpa [beq_iff_eq] using hk
      exact List.mem_cons_self _ _
    | false =>
      rw [hk] at h
      exact List.mem_cons_of_mem _ (ih h)

theorem createProject_roundtrip {db : DB}
    (hfr : db.projects.lookup db.nextProjectId = none)
    {p : Project} (hn : p.name.length ≤ 200) :
    ∃ db', db.createProject p = Except.ok (db', db.nextProjectId) ∧
      db'.projects.lookup db.nextProjectId = some p := by
  have hcond : ¬ 200 < p.name.length := Nat.not_lt.mpr hn
  simp only [DB.createProject, if_neg hcond]
  refine ⟨_, rfl, ?_⟩
  show (db.projects ++ [(db.nextProjectId, p)]).lookup db.nextProjectId = some p
  rw [lookup_append_none _ hfr]
  simp

theorem createTask_roundtrip {db : DB}
    (hfr : db.tasks.lookup db.nextTaskId = none)
    {t : Task} (ht : t.title.length ≤ 200)
    (hfk : (db.projects.lookup t.project).isSome = true) :
    ∃ db', db.createTask t = Except.ok (db', db.nextTaskId) ∧
      db'.tasks.lookup db.nextTaskId = some t := by
  have hcond : ¬ 200 < t.title.length := Nat.not_lt.mpr ht
  have hnone : ¬ (db.projects.lookup t.project).isNone = true := by
    simp only [Option.isNone_iff_eq_none]
    intro hx
    rw [hx] at hfk
    simp at hfk
  simp only [DB.createTask, if_neg hcond, if_neg hnone]
  refine ⟨_, rfl, ?_⟩
  show (db.tasks ++ [(db.nextTaskId, t)]).lookup db.nextTaskId = some t
  rw [lookup_append_none _ hfr]
  simp

/-! ### Sample states used by the witnesses -/

/-- A concrete state with two projects and one task per project. -/
def sampleDB : DB :=
  ⟨[(1, {name := "Alpha", description := "demo"}),
    (2, {name := "Beta", description := "demo2"})],
   [(1, {project := 1, title := "t1"}),
    (2, {project := 2, title := "t2"})], 3, 3⟩

/-- A text value one code unit over the 200-unit bound. -/
def longText : String := String.mk (List.replicate 201 'x')

/-! ### The claims -/

/-- C1: deleting a Project also deletes every Task whose project reference
is that Project — after `deleteProject pid`, no retrievable Task has
`project = pid`. -/
theorem cascade_delete_removes_tasks (db : DB) (pid tid : Nat) (t : Task)
    (h : ((db.deleteProject pid).tasks).lookup tid = some t) :
    t.project ≠ pid := by
  have hmem := mem_of_lookup_some h
  have hpred := (List.mem_filter.mp hmem).2
  simpa using hpred

theorem cascade_delete_removes_tasks_witness :
    ((sampleDB.deleteProject 1).tasks.lookup 2
        = some {project := 2, title := "t2"}) ∧
      ({project := 2, title := "t2"} : Task).project ≠ 1 :=
  ⟨by decide,
   cascade_delete_removes_tasks sampleDB 1 2 {project := 2, title := "t2"} (by decide)⟩

/-- C2: referential integrity holds in every reachable state; creating a
Task whose project reference does not resolve fails; and every operation
preserves the invariant on valid states. -/
theorem referential_integrity_invariant :
    (∀ db : DB, Reachable db → db.refIntegrity = true) ∧
    (∀ (db : DB) (t : Task), db.projects.lookup t.project = none →
       (db.createTask t).isOk = false) ∧
    (∀ db db' : DB, db.Inv → Step db db' → db'.refIntegrity = true) := by
  refine ⟨fun db h => (reachable_inv h).1, ?_, fun _ _ hi hs => (inv_step hi hs).1⟩
  intro db t hnone
  rw [DB.createTask]
  split
  · rfl
  · simp [hnone, Except.isOk, Except.toBool]

theorem referential_integrity_invariant_witness :
    DB.empty.refIntegrity = true ∧
      (DB.empty.createTask {project := 7, title := "t"}).isOk = false ∧
      (DB.empty.deleteProject 1).refIntegrity = true :=
  ⟨referential_integrity_invariant.1 DB.empty Reachable.empty,
   referential_integrity_invariant.2.1 DB.empty {project := 7, title := "t"} (by decide),
   referential_integrity_invariant.2.2 DB.empty (DB.empty.deleteProject 1)
     ⟨rfl, rfl, by simp [DB.empty, DB.fresh]⟩ (Step.deleteProject DB.empty 1)⟩

/-- C3: a newly created Project with `progress`, `total_tasks` and
`completed_tasks` not supplied has all three equal to 0, and a newly
created Task with `completed` not supplied has `completed = false`. -/
theorem creation_defaults :
    (∀ n d : String, ({name := n, description := d} : Project).progress = 0 ∧
       ({name := n, description := d} : Project).total_tasks = 0 ∧
       ({name := n, description := d} : Project).completed_tasks = 0) ∧
    (∀ (pid : Nat) (ti : String),
       ({project := pid, title := ti} : Task).completed = false) :=
  ⟨fun _ _ => ⟨rfl, rfl, rfl⟩, fun _ _ => rfl⟩

/-- C4 is false as universally quantified: a 201-code-unit name is
rejected by the persistence layer, so the creation itself fails and no
value can be retrieved. -/
theorem create_retrieve_roundtrip_cex :
    (DB.empty.createProject {name := longText, description := "demo"}).isOk
      = false := by decide

/-- C4 (amended): for every name of at most 200 code units and every
description, creating a Project and retrieving it returns exactly those
values; for every existing Project and every title of at most 200 code
units, creating a Task and retrieving it returns exactly those values
with `completed = false`. -/
theorem create_retrieve_roundtrip (db : DB) (hreach : Reachable db)
    (n d ti : String) (hn : n.length ≤ 200) (ht : ti.length ≤ 200) :
    (∃ db', db.createProject {name := n, description := d}
        = Except.ok (db', db.nextProjectId) ∧
      db'.projects.lookup db.nextProjectId
        = some {name := n, description := d}) ∧
    (∀ pid, (db.projects.lookup pid).isSome = true →
      ∃ db', db.createTask {project := pid, title := ti}
          = Except.ok (db', db.nextTaskId) ∧
        db'.tasks.lookup db.nextTaskId
          = some {project := pid, title := ti, completed := false}) := by
  obtain ⟨-, -, hfr⟩ := reachable_inv hreach
  constructor
  · exact createProject_roundtrip (fresh_project_lookup_none hfr) hn
  · intro pid hpid
    exact createTask_roundtrip (fresh_task_lookup_none hfr) ht hpid

theorem create_retrieve_roundtrip_witness :
    (∃ db', DB.empty.createProject {name := "Alpha", description := "demo"}
        = Except.ok (db', DB.empty.nextProjectId) ∧
      db'.projects.lookup DB.empty.nextProjectId
        = some {name := "Alpha", description := "demo"}) ∧
    (∀ pid, (DB.empty.projects.lookup pid).isSome = true →
      ∃ db', DB.empty.createTask {project := pid, title := "Do X"}
          = Except.ok (db', DB.empty.nextTaskId) ∧
        db'.tasks.lookup DB.empty.nextTaskId
          = some {project := pid, title := "Do X", completed := false}) :=
  create_retrieve_roundtrip DB.empty Reachable.empty "Alpha" "demo" "Do X"
    (by decide) (by decide)

/-- C5: Task create/update/delete leave the Project table — in particular
every Project's `progress`, `total_tasks` and `completed_tasks` fields —
unchanged; nothing recomputes them from the set of related Tasks. -/
theorem task_ops_preserve_project_fields (db : DB) :
    (∀ (t : Task) (db' : DB) (tid : Nat),
       db.createTask t = Except.ok (db', tid) → db'.projects = db.projects) ∧
    (∀ (tid : Nat) (t : Task) (db' : DB),
       db.updateTask tid t = Except.ok db' → db'.projects = db.projects) ∧
    (∀ tid : Nat, (db.deleteTask tid).projects = db.projects) := by
  refine ⟨?_, ?_, fun _ => rfl⟩
  · intro t db' tid h
    rw [DB.createTask] at h
    split at h
    · exact absurd h (by simp)
    · split at h
      · exact absurd h (by simp)
      · injection h with h1
        injection h1 with h2 h3
        rw [← h2]
  · intro tid t db' h
    rw [DB.updateTask] at h
    split at h
    · exact absurd h (by simp)
    · split at h
      · exact absurd h (by simp)
      · split at h
        · exact absurd h (by simp)
        · injection h with h1
          rw [← h1]

theorem task_ops_preserve_project_fields_witness :
    (DB.mk [(1, {name := "Alpha", description := "demo"})]
       [(1, {project := 1, title := "t"})] 2 2).projects
      = (DB.mk [(1, {name := "Alpha", description := "demo"})] [] 2 1).projects :=
  (task_ops_preserve_project_fields
      (DB.mk [(1, {name := "Alpha", description := "demo"})] [] 2 1)).1
    {project := 1, title := "t"}
    (DB.mk [(1, {name := "Alpha", description := "demo"})]
       [(1, {project := 1, title := "t"})] 2 2) 1 rfl

/-- C6: in every reachable state every persisted Project name and Task
title is at most 200 code units long, and an attempt to persist a longer
value (by create or update) is rejected. -/
theorem length_bound_invariant :
    (∀ db : DB, Reachable db →
       (∀ e ∈ db.projects, e.2.name.length ≤ 200) ∧
       (∀ e ∈ db.tasks, e.2.title.length ≤ 200)) ∧
    (∀ (db : DB) (p : Project), 200 < p.name.length →
       (db.createProject p).isOk = false) ∧
    (∀ (db : DB) (pid : Nat) (p : Project), 200 < p.name.length →
       (db.updateProject pid p).isOk = false) ∧
    (∀ (db : DB) (t : Task), 200 < t.title.length →
       (db.createTask t).isOk = false) ∧
    (∀ (db : DB) (tid : Nat) (t : Task), 200 < t.title.length →
       (db.updateTask tid t).isOk = false) := by
  refine ⟨?_, ?_, ?_, ?_, ?_⟩
  · intro db h
    exact lengthOk_iff.mp (reachable_inv h).2.1
  · intro db p hp
    rw [DB.createProject, if_pos hp]
    rfl
  · intro db pid p hp
    rw [DB.updateProject, if_pos hp]
    rfl
  · intro db t htl
    rw [DB.createTask, if_pos htl]
    rfl
  · intro db tid t htl
    rw [DB.updateTask, if_pos htl]
    rfl

theorem length_bound_invariant_witness :
    ((∀ e ∈ DB.empty.projects, e.2.name.length ≤ 200) ∧
       (∀ e ∈ DB.empty.tasks, e.2.title.length ≤ 200)) ∧
      (DB.empty.createProject {name := longText, description := ""}).isOk
        = false ∧
      (DB.empty.createTask {project := 1, title := longText}).isOk = false :=
  ⟨length_bound_invariant.1 DB.empty Reachable.empty,
   length_bound_invariant.2.1 DB.empty
     {name := longText, description := ""} (by decide),
   length_bound_invariant.2.2.2.1 DB.empty
     {project := 1, title := longText} (by decide)⟩

/-- C7: the string representation of a Project is its `name` field and
the string representation of a Task is its `title` field. -/
theorem str_returns_label :
    (∀ p : Project, p.str = p.name) ∧ (∀ t : Task, t.str = t.title) :=
  ⟨fun _ => rfl, fun _ => rfl⟩

/-- C8: deleting a Project removes exactly that Project and the Tasks
referencing it: the deleted Project is no longer retrievable, every other
Project is retrieved unchanged, every Task referencing a different
Project survives with the same values, and the surviving rows are exactly
the original rows not owned by the deleted Project. -/
theorem cascade_delete_frame (db : DB) (pid : Nat) :
    ((db.deleteProject pid).projects.lookup pid = none) ∧
    (∀ pid' : Nat, pid' ≠ pid →
       (db.deleteProject pid).projects.lookup pid' = db.projects.lookup pid') ∧
    (∀ (tid : Nat) (t : Task), db.tasks.lookup tid = some t →
       t.project ≠ pid → (db.deleteProject pid).tasks.lookup tid = some t) ∧
    (∀ e : Nat × Task, e ∈ (db.deleteProject pid).tasks ↔
       e ∈ db.tasks ∧ e.2.project ≠ pid) ∧
    (∀ e : Nat × Project, e ∈ (db.deleteProject pid).projects ↔
       e ∈ db.projects ∧ e.1 ≠ pid) := by
  refine ⟨?_, ?_, ?_, ?_, ?_⟩
  · apply lookup_eq_none_of_keys
    intro e he
    have h2 := (List.mem_filter.mp he).2
    simpa using h2
  · intro pid' hne
    exact lookup_filter_key _ _ _ hne
  · intro tid t h hne
    exact lookup_filter_val _ h (by simpa using hne)
  · intro e
    constructor
    · intro he
      have h1 := List.mem_filter.mp he
      exact ⟨h1.1, by simpa using h1.2⟩
    · intro h1
      exact List.mem_filter.mpr ⟨h1.1, by simpa using h1.2⟩
  · intro e
    constructor
    · intro he
      have h1 := List.mem_filter.mp he
      exact ⟨h1.1, by simpa using h1.2⟩
    · intro h1
      exact List.mem_filter.mpr ⟨h1.1, by simpa using h1.2⟩

theorem cascade_delete_frame_witness :
    (sampleDB.deleteProject 1).projects.lookup 2 = sampleDB.projects.lookup 2 ∧
      (sampleDB.deleteProject 1).tasks.lookup 2
        = some {project := 2, title := "t2"} ∧
      ((1, ({project := 1, title := "t1"} : Task))
          ∈ (sampleDB.deleteProject 1).tasks ↔
        (1, ({project := 1, title := "t1"} : Task)) ∈ sampleDB.tasks ∧
          ({project := 1, title := "t1"} : Task).project ≠ 1) :=
  ⟨(cascade_delete_frame sampleDB 1).2.1 2 (by decide),
   (cascade_delete_frame sampleDB 1).2.2.1 2 {project := 2, title := "t2"}
     (by decide) (by decide),
   (cascade_delete_frame sampleDB 1).2.2.2.1 (1, {project := 1, title := "t1"})⟩

/-- C9: when creating a Task fails (for example because its project
reference does not resolve), the persisted state after the transactional
attempt is exactly the state before it. -/
theorem failed_create_task_atomic (db : DB) (t : Task)
    (h : (db.createTask t).isOk = false) :
    db.applyCreateTask t = db := by
  rw [DB.applyCreateTask]
  split
  · rename_i db' tid heq
    rw [heq] at h
    simp [Except.isOk, Except.toBool] at h
  · rfl

theorem failed_create_task_atomic_witness :
    (DB.empty.createTask {project := 7, title := "t"}).isOk = false ∧
      DB.empty.applyCreateTask {project := 7, title := "t"} = DB.empty :=
  ⟨by decide,
   failed_create_task_atomic DB.empty {project := 7, title := "t"} (by decide)⟩

/-- C10: the integer fields `progress`, `total_tasks`, `completed_tasks`
are unconstrained: any integer values — negative or above 100 — are
accepted, persisted, and retrieved unchanged; nothing validates or clamps
them. -/
theorem integer_fields_unconstrained (db : DB) (hreach : Reachable db)
    (v w u : Int) (n d : String) (hn : n.length ≤ 200) :
    ∃ db', db.createProject
        {name := n, description := d, progress := v, total_tasks := w,
         completed_tasks := u} = Except.ok (db', db.nextProjectId) ∧
      db'.projects.lookup db.nextProjectId
        = some {name := n, description := d, progress := v, total_tasks := w,
                completed_tasks := u} := by
  obtain ⟨-, -, hfr⟩ := reachable_inv hreach
  exact createProject_roundtrip (fresh_project_lookup_none hfr) hn

theorem integer_fields_unconstrained_witness :
    ∃ db', DB.empty.createProject
        {name := "P", description := "", progress := -5, total_tasks := 101,
         completed_tasks := -100} = Except.ok (db', DB.empty.nextProjectId) ∧
      db'.projects.lookup DB.empty.nextProjectId
        = some {name := "P", description := "", progress := -5,
                total_tasks := 101, completed_tasks := -100} :=
  integer_fields_unconstrained DB.empty Reachable.empty (-5) 101 (-100)
    "P" "" (by decide)

end SynergySphere
